import Mathlib

/-!
Verification development for the bigheads podcast worker
(`worker/get_new_episode.py`, `worker/delete.py`).

The Python scripts are shallowly embedded: pure string/branch logic is
translated directly; every external call (Supabase queries, Google Cloud
Storage, HTTP downloads, mutagen duration probing) is represented by an
oracle record whose fields give the outcome of each call, and the mutable
world (episodes table, watched_episodes table, storage bucket) is an
explicit state threaded through the functions.
-/

set_option maxRecDepth 4096

/-! ## Character and string primitives used by the Python code -/

/-- ASCII digit test, the character class `[0-9]` of the duration regex. -/
def is_ascii_digit (c : Char) : Bool := decide (48 ≤ c.toNat ∧ c.toNat ≤ 57)

/-- Numeric value of an ASCII digit character. -/
def digit_val (c : Char) : Nat := c.toNat - 48

/-- The whitespace characters stripped by Python `int()` (str.strip):
space, tab, newline, carriage return, vertical tab, form feed. -/
def is_python_space (c : Char) : Bool := decide (c.toNat = 32 ∨ (9 ≤ c.toNat ∧ c.toNat ≤ 13))

/-- Python `s.split(sep, ...)` for a one-character separator, on char lists:
splits at every occurrence of the separator. -/
def py_split_char (c : Char) : List Char → List (List Char)
  | [] => [[]]
  | a :: rest =>
    match py_split_char c rest with
    | [] => [[]]
    | grp :: rest' => if a = c then [] :: grp :: rest' else (a :: grp) :: rest'

/-- Strip leading and trailing Python whitespace (what `int()` tolerates). -/
def py_strip_ws (l : List Char) : List Char :=
  ((l.dropWhile is_python_space).reverse.dropWhile is_python_space).reverse

/-- Python `int()` on the strings this program feeds it (non-negative digit
strings, possibly surrounded by whitespace); `none` models the `ValueError`
raise. Signs and underscores never occur at the call sites and are omitted. -/
def py_int_chars (l : List Char) : Option Nat :=
  let t := py_strip_ws l
  if t.isEmpty then none
  else if t.all is_ascii_digit then
    some (t.foldl (fun acc c => acc * 10 + digit_val c) 0)
  else none

/-- Python `s.split(sub, 1)[0]` generalised: split a char list at the first
occurrence of a (non-empty) pattern, returning the part before and after it;
`none` when the pattern does not occur (Python `sub in s` is false). -/
def split_first_sub (pat : List Char) : List Char → Option (List Char × List Char)
  | [] => none
  | a :: rest =>
    if pat.isPrefixOf (a :: rest) then some ([], (a :: rest).drop pat.length)
    else
      match split_first_sub pat rest with
      | some pr => some (a :: pr.1, pr.2)
      | none => none

/-- `url.split('?', 1)[0]`: everything before the first question mark. -/
def clean_url (s : String) : String := ⟨s.data.takeWhile (fun c => !(c == '?'))⟩

/-- The `path` component of Python `urllib.parse.urlparse`: the fragment and
query are not part of the path, the `scheme://netloc` part is stripped, and
the path starts at the first slash after the authority. -/
def urlparse_path (url : String) : String :=
  let noq := (url.data.takeWhile (fun c => !(c == '#'))).takeWhile (fun c => !(c == '?'))
  match split_first_sub [':', '/', '/'] noq with
  | some pr => ⟨pr.2.dropWhile (fun c => !(c == '/'))⟩
  | none => ⟨noq⟩

/-- Python `os.path.basename`: the part after the last slash. -/
def os_basename (p : String) : String :=
  ⟨(p.data.reverse.takeWhile (fun c => !(c == '/'))).reverse⟩

/-- Python `pathlib.PurePath(p).name`: trailing slashes are dropped first,
then the last component is taken. -/
def purepath_name (p : String) : String :=
  let stripped := (p.data.reverse.dropWhile (fun c => c == '/')).reverse
  ⟨(stripped.reverse.takeWhile (fun c => !(c == '/'))).reverse⟩

/-- Python `s.endswith(suf)`. -/
def py_endswith (suf s : String) : Bool := suf.data.isSuffixOf s.data

/-- `extract_filename_from_url` of `worker/delete.py`:
`PurePath(urlparse(url).path).name`. -/
def extract_filename_from_url (url : String) : String := purepath_name (urlparse_path url)

/-- The `GCP_FOLDER_NAME` environment value; the ingestion job uploads under
the fixed folder `mp3`, which is therefore the value used by a deployment. -/
def gcp_folder_name : String := "mp3"

/-- The bucket object path `f"{gcp_folder_name}/{filename}"` that the
retention job derives from a stored `mp3_link`. -/
def blob_path (url : String) : String := gcp_folder_name ++ "/" ++ extract_filename_from_url url

/-- The first-paragraph/first-line truncation of a feed item description in
`process_episodes`: the part before the first `<p>` when one occurs,
otherwise the part before the first newline, otherwise the whole string. -/
def py_description (s : String) : String :=
  match split_first_sub ['<', 'p', '>'] s.data with
  | some pr => ⟨pr.1⟩
  | none =>
    match split_first_sub ['\n'] s.data with
    | some pr => ⟨pr.1⟩
    | none => s

/-! ## Duration validation and conversion (`worker/get_new_episode.py`) -/

/-- The shape test of the regex `^([0-9]{2}):([0-9]{2}):([0-9]{2})$`:
two digits, colon, two digits, colon, two digits (grouped as the regex
groups them). -/
def hhmmss_match (h1 h2 c1 m1 m2 c2 s1 s2 : Char) : Bool :=
  (is_ascii_digit h1 && is_ascii_digit h2) && (c1 == ':') &&
  (is_ascii_digit m1 && is_ascii_digit m2) && (c2 == ':') &&
  (is_ascii_digit s1 && is_ascii_digit s2)

/-- The range checks of `validate_duration_format`: hours 0–23, minutes and
seconds 0–59 (the `< 0` branches of the Python code are unreachable for
two-digit groups and are omitted). -/
def duration_ranges_ok (h1 h2 m1 m2 s1 s2 : Char) : Bool :=
  decide (digit_val h1 * 10 + digit_val h2 ≤ 23) &&
  decide (digit_val m1 * 10 + digit_val m2 ≤ 59) &&
  decide (digit_val s1 * 10 + digit_val s2 ≤ 59)

/-- `validate_duration_format` of `worker/get_new_episode.py`.
`re.match(r'^(..):(..):(..)$', s)` succeeds on an exact eight-character
match and, because Python's `$` also matches just before a newline that ends
the string, on the same eight characters followed by one final newline. -/
def validate_duration_format (s : String) : Bool :=
  match s.data with
  | [h1, h2, c1, m1, m2, c2, s1, s2] =>
    hhmmss_match h1 h2 c1 m1 m2 c2 s1 s2 && duration_ranges_ok h1 h2 m1 m2 s1 s2
  | [h1, h2, c1, m1, m2, c2, s1, s2, nl] =>
    (nl == '\n') && (hhmmss_match h1 h2 c1 m1 m2 c2 s1 s2 && duration_ranges_ok h1 h2 m1 m2 s1 s2)
  | _ => false

/-- `convert_in_seconds` of `worker/get_new_episode.py`: raise (`error`) on
invalid format, otherwise split on `:`, convert the parts with `int`, and
return `hours*3600 + minutes*60 + seconds`. -/
def convert_in_seconds (s : String) : Except String Nat :=
  if validate_duration_format s = false then Except.error "Invalid duration format"
  else
    match (py_split_char ':' s.data).map py_int_chars with
    | [some h, some m, some sec] => Except.ok (h * 3600 + m * 60 + sec)
    | _ => Except.error "unpacking or int conversion failed"

/-! Spec-side definitions, transcribed from the specification's words, for
comparison with the code-derived functions above. -/

/-- Modelled from the spec: a two-digit field and its numeric value. -/
def two_digit_num (c1 c2 : Char) : Option Nat :=
  if is_ascii_digit c1 && is_ascii_digit c2 then some (digit_val c1 * 10 + digit_val c2) else none

/-- Modelled from the spec: a string "matching `HH:MM:SS` with two digits per
field, hours in 0–23, minutes in 0–59, and seconds in 0–59" — exactly eight
characters, nothing more. -/
def spec_hhmmss (s : String) : Bool :=
  match s.data with
  | [h1, h2, c1, m1, m2, c2, s1, s2] =>
    (c1 == ':') && (c2 == ':') &&
    (match two_digit_num h1 h2, two_digit_num m1 m2, two_digit_num s1 s2 with
     | some hh, some mm, some ss => decide (hh ≤ 23) && decide (mm ≤ 59) && decide (ss ≤ 59)
     | _, _, _ => false)
  | _ => false

/-- The set of strings the code's validator really accepts: a spec-shaped
`HH:MM:SS` string, optionally followed by one trailing newline. -/
def spec_accepts (s : String) : Bool :=
  match s.data with
  | [h1, h2, c1, m1, m2, c2, s1, s2] => spec_hhmmss ⟨[h1, h2, c1, m1, m2, c2, s1, s2]⟩
  | [h1, h2, c1, m1, m2, c2, s1, s2, nl] =>
    (nl == '\n') && spec_hhmmss ⟨[h1, h2, c1, m1, m2, c2, s1, s2]⟩
  | _ => false

/-- Modelled from the spec: `hours*3600 + minutes*60 + seconds` read off the
three two-digit fields of the string. -/
def spec_seconds (s : String) : Nat :=
  match s.data with
  | h1 :: h2 :: _ :: m1 :: m2 :: _ :: s1 :: s2 :: _ =>
    (digit_val h1 * 10 + digit_val h2) * 3600 +
    (digit_val m1 * 10 + digit_val m2) * 60 +
    (digit_val s1 * 10 + digit_val s2)
  | _ => 0

/-! ## Ingestion model (`worker/get_new_episode.py`)

External effects are decided by an `IngestOracle`:
* `cv` stands for `convert_pubdate_format`, whose `strptime` internals are
  not modelled; every theorem below holds for an arbitrary conversion
  function, hence for the real one.
* `alreadyDownloaded f` / `downloadOk u` decide the `os.path.exists` check
  and the success of the streamed HTTP download in `download_mp3`.
* `durOf p` is `get_mp3_duration(p)`: the mutagen probe of the local file,
  `none` when the duration cannot be measured.
* `uploadOk f` is the Boolean result of `StorageManager.upload_file`;
  `publicUrl p` the URL `StorageManager.get_public_url` returns (its raise
  path would abort the batch through the outer handler and is not modelled).
* `saveThrow d` makes the Supabase insert inside `save_episode` raise (the
  function catches it and returns `False`). -/

/-- The value stored in an episode's `duration` field: either the measured
number of seconds, or — when measurement fails — the Python value
`(item["itunes:duration"],)`, a one-element tuple holding the raw feed string
(the trailing comma at `get_new_episode.py:446` builds a tuple). -/
inductive DurationVal where
  | num (seconds : Nat)
  | strTuple (raw : String)
deriving DecidableEq, Repr

structure FeedItem where
  title : String
  pubDate : String
  description : String
  itunesDuration : String
  enclosureUrl : String
deriving DecidableEq, Repr

structure Episode where
  title : String
  publication_date : String
  description : String
  original_mp3_link : String
  duration : DurationVal
  mp3_link : String
deriving DecidableEq, Repr

/-- The `episodes` table as the ingestion job sees it. -/
structure DbState where
  rows : List Episode
deriving DecidableEq, Repr

structure IngestOracle where
  cv : String → String
  alreadyDownloaded : String → Bool
  downloadOk : String → Bool
  durOf : String → Option Nat
  uploadOk : String → Bool
  publicUrl : String → String
  saveThrow : String → Bool

/-- `DatabaseManager.episode_exists`: a row with this publication date. -/
def episode_exists (db : DbState) (d : String) : Bool :=
  db.rows.any (fun e => e.publication_date == d)

/-- `DatabaseManager.episode_exists_by_url`: a row with this original URL. -/
def episode_exists_by_url (db : DbState) (u : String) : Bool :=
  db.rows.any (fun e => e.original_mp3_link == u)

/-- `DatabaseManager.save_episode`: re-check the publication date, then
insert; an exception from the insert is caught and yields `false`. The
`"mp3_link" not in episode` guard never fires at the call site (the field is
always set just before the call) and the record type keeps it present. -/
def save_episode (o : IngestOracle) (db : DbState) (ep : Episode) : DbState × Bool :=
  if o.saveThrow ep.publication_date then (db, false)
  else if episode_exists db ep.publication_date then (db, false)
  else (⟨db.rows ++ [ep]⟩, true)

def download_dir : String := "./downloads"

/-- `PodcastFetcher.download_mp3`: strip the query string, take the basename
of the URL path, refuse non-`.mp3` names, reuse an existing local file, else
download. Returns the local filename or `none` on failure. -/
def download_mp3 (o : IngestOracle) (url : String) : Option String :=
  let cleaned := clean_url url
  let filename := os_basename (urlparse_path cleaned)
  if py_endswith ".mp3" filename = false then none
  else if o.alreadyDownloaded filename then some filename
  else if o.downloadOk cleaned then some filename
  else none

/-- Observable per-item effects of `process_episodes`, in program order:
a duplicate skip, a `download_mp3` call, an `upload_file` call, a
`save_episode` call. -/
inductive IngEvent where
  | dupSkip (pub : String)
  | downloadCall (url : String)
  | uploadCall (filename : String)
  | saveCall (pub : String)
deriving DecidableEq, Repr

/-- Outcome of the body of the `process_episodes` loop for one item, after
the duration-format check and the `count >= max_episodes` break check:
either the item is skipped without touching the counter, or it consumes one
unit of the budget (`count += 1`), possibly changing the database and
yielding an inserted episode. -/
inductive StepRes where
  | skipStep (evs : List IngEvent)
  | consume (db : DbState) (inserted : Option Episode) (evs : List IngEvent)
deriving DecidableEq, Repr

/-- The per-item part of `process_episodes` (`get_new_episode.py:409-460`),
everything after the break check, in source order: description truncation,
date conversion, query-string strip, `.mp3` check, duplicate check, download,
duration fallback, upload, public URL, insert. -/
def process_item (o : IngestOracle) (db : DbState) (item : FeedItem) : StepRes :=
  let descr := py_description item.description
  let pub := o.cv item.pubDate
  let original := clean_url item.enclosureUrl
  if py_endswith ".mp3" original = false then StepRes.skipStep []
  else if episode_exists db pub || episode_exists_by_url db original then
    StepRes.consume db none [IngEvent.dupSkip pub]
  else
    match download_mp3 o original with
    | none => StepRes.skipStep [IngEvent.downloadCall original]
    | some filename =>
      let dur : DurationVal :=
        match o.durOf (download_dir ++ "/" ++ filename) with
        | some d => DurationVal.num d
        | none => DurationVal.strTuple item.itunesDuration
      if o.uploadOk filename then
        let pubUrl := o.publicUrl ("mp3/" ++ filename)
        let ep : Episode := ⟨item.title, pub, descr, original, dur, pubUrl⟩
        let res := save_episode o db ep
        StepRes.consume res.1 (if res.2 then some ep else none)
          [IngEvent.downloadCall original, IngEvent.uploadCall filename, IngEvent.saveCall pub]
      else
        StepRes.consume db none [IngEvent.downloadCall original, IngEvent.uploadCall filename]

structure RunResult where
  processed : List Episode
  db : DbState
  count : Nat
  trace : List IngEvent
deriving DecidableEq, Repr

/-- The `for item in items` loop of `process_episodes`: skip items whose
declared duration fails validation (before the break check, as in the
source), break once `count >= max_episodes`, otherwise run the item body and
bump the counter exactly when the body consumes budget. Nothing in the model
raises, so the enclosing `try/except` (which would return the episodes
collected so far) has no visible branch. -/
def process_episodes_go (o : IngestOracle) (mx : Nat) : List FeedItem → DbState → Nat → RunResult
  | [], db, c => ⟨[], db, c, []⟩
  | item :: rest, db, c =>
    if validate_duration_format item.itunesDuration = false then
      process_episodes_go o mx rest db c
    else if mx ≤ c then ⟨[], db, c, []⟩
    else
      match process_item o db item with
      | StepRes.skipStep evs =>
        let r := process_episodes_go o mx rest db c
        ⟨r.processed, r.db, r.count, evs ++ r.trace⟩
      | StepRes.consume db' ins evs =>
        let r := process_episodes_go o mx rest db' (c + 1)
        ⟨(match ins with | some e => e :: r.processed | none => r.processed),
         r.db, r.count, evs ++ r.trace⟩

/-- `process_episodes(feed_data, max_episodes, ...)`, starting from a fresh
counter; the items list is `feed_data["rss"]["channel"]["item"]`. -/
def process_episodes (o : IngestOracle) (items : List FeedItem) (mx : Nat) (db : DbState) :
    RunResult :=
  process_episodes_go o mx items db 0

/-- An item that passes the two shape checks of the loop: declared duration
in valid format and a query-stripped enclosure URL ending in `.mp3`. -/
def item_shape_ok (item : FeedItem) : Bool :=
  validate_duration_format item.itunesDuration &&
  py_endswith ".mp3" (clean_url item.enclosureUrl)

/-- Whether one item consumes a unit of the `max_episodes` budget when its
turn comes with budget remaining: the loop increments `count` exactly when
the item passes the duration check and its body returns `consume`. -/
def consumes_budget (o : IngestOracle) (db : DbState) (item : FeedItem) : Bool :=
  if validate_duration_format item.itunesDuration = false then false
  else
    match process_item o db item with
    | StepRes.skipStep _ => false
    | StepRes.consume _ _ _ => true

/-! ## Retention model (`worker/delete.py`)

State: the `episodes` table, the `watched_episodes` table (one list entry
per row, holding its `episode_id`), and the bucket (the set of object paths
present). The `RetOracle` decides each external call:
* `wdThrow u` — the `watched_episodes` delete for `u` raises (caught, rows
  unchanged); `wdEffective u` — whether that delete actually removes the
  rows (the verification re-query exists precisely because the API gives no
  such guarantee); `vThrow u` — the verification re-query raises (caught by
  the same handler, after the delete took effect).
* `epCheckThrow u` / `epThrow u` — the re-check query and the episode-row
  delete in `delete_episodes` raise (caught, row kept).
* `blobThrow l` — the existence check / blob delete for link `l` raises
  (caught, object kept); `gcsInitOk` — the storage client initialises.
The `problematic_episodes` scan, the `time.sleep(2)` pause and the local
`downloads/` file cleanup only log or touch transient local files and have
no bearing on the three stores; they are not part of the state. -/

structure EpisodeRow where
  id : String
  mp3Link : Option String
  pubDate : String
deriving DecidableEq, Repr

structure RetState where
  episodes : List EpisodeRow
  watchedRows : List String
  store : List String
deriving DecidableEq, Repr

structure RetOracle where
  wdThrow : String → Bool
  wdEffective : String → Bool
  vThrow : String → Bool
  epCheckThrow : String → Bool
  epThrow : String → Bool
  blobThrow : String → Bool
  gcsInitOk : Bool

/-- A run in which no external call fails and every dependent delete takes
effect. -/
def RetOracle.NoFail (o : RetOracle) : Prop :=
  (∀ u, o.wdThrow u = false) ∧ (∀ u, o.wdEffective u = true) ∧
  (∀ u, o.vThrow u = false) ∧ (∀ u, o.epCheckThrow u = false) ∧
  (∀ u, o.epThrow u = false) ∧ (∀ l, o.blobThrow l = false) ∧ o.gcsInitOk = true

/-- Observable deletions of a retention run, in order: a successful
`episodes`-row delete, a successful bucket-object delete. -/
inductive RetEvent where
  | dbDelete (u : String)
  | blobDelete (p : String)
deriving DecidableEq, Repr

/-- Lexicographic order by code point on char lists: the order the store's
`.lt` filter applies to the `YYYY-MM-DD` date strings. -/
def str_lt_chars : List Char → List Char → Bool
  | [], [] => false
  | [], _ :: _ => true
  | _ :: _, [] => false
  | a :: as, b :: bs =>
    if a.toNat < b.toNat then true
    else if b.toNat < a.toNat then false
    else str_lt_chars as bs

/-- Strict less-than on date strings; on ISO `YYYY-MM-DD` representations
lexicographic order is chronological order. -/
def date_lt (a b : String) : Bool := str_lt_chars a.data b.data

/-- `get_old_episodes`: rows with `publication_date` strictly below the
cutoff string; the cutoff is `get_date_days_ago(days_ago)`, i.e. today minus
the retention window. -/
def get_old_episodes (cutoff : String) (st : RetState) : List EpisodeRow :=
  st.episodes.filter (fun e => date_lt e.pubDate cutoff)

/-- The `watched_episodes` table right after the dependent-delete call for
`u`: the rows for `u` are gone when the delete took effect, untouched
otherwise. -/
def dwe_rows1 (o : RetOracle) (u : String) (rows : List String) : List String :=
  if o.wdEffective u then rows.filter (fun r => r != u) else rows

/-- `delete_watched_episodes`: per UUID, attempt the dependent delete on the
`watched_episodes` table (the only store the function touches), then verify
by re-querying; append to the returned list only when no rows remain. Every
exception is caught and logged, and the loop continues. Returns the final
table and the list of safely cleared UUIDs, in order. -/
def delete_watched_episodes (o : RetOracle) : List String → List String → List String × List String
  | [], rows => (rows, [])
  | u :: rest, rows =>
    if o.wdThrow u then delete_watched_episodes o rest rows
    else if o.vThrow u then delete_watched_episodes o rest (dwe_rows1 o u rows)
    else if (dwe_rows1 o u rows).countP (fun r => r == u) = 0 then
      ((delete_watched_episodes o rest (dwe_rows1 o u rows)).1,
       u :: (delete_watched_episodes o rest (dwe_rows1 o u rows)).2)
    else delete_watched_episodes o rest (dwe_rows1 o u rows)

/-- `delete_episodes`: per UUID, double-check that no `watched_episodes`
rows remain (the table is `watched`; nothing writes it during this loop),
then delete the `episodes` row; exceptions are caught and the loop
continues. Returns the final `episodes` table and the delete events. -/
def delete_episodes (o : RetOracle) (watched : List String) :
    List String → List EpisodeRow → List EpisodeRow × List RetEvent
  | [], eps => (eps, [])
  | u :: rest, eps =>
    if o.epCheckThrow u then delete_episodes o watched rest eps
    else if watched.countP (fun r => r == u) ≠ 0 then delete_episodes o watched rest eps
    else if o.epThrow u then delete_episodes o watched rest eps
    else
      let res := delete_episodes o watched rest (eps.filter (fun r => r.id != u))
      (res.1, RetEvent.dbDelete u :: res.2)

/-- The per-link loop of `delete_mp3_files`: skip falsy (`None` or empty)
links, derive the bucket path, delete the object when it exists; exceptions
are caught per link. The opportunistic local-file cleanup touches only the
transient download directory and is outside the modelled state. -/
def delete_mp3_loop (o : RetOracle) : List (Option String) → List String → List String × List RetEvent
  | [], store => (store, [])
  | none :: rest, store => delete_mp3_loop o rest store
  | some l :: rest, store =>
    if l = "" then delete_mp3_loop o rest store
    else if o.blobThrow l then delete_mp3_loop o rest store
    else
      let p := blob_path l
      if store.contains p then
        let res := delete_mp3_loop o rest (store.filter (fun q => q != p))
        (res.1, RetEvent.blobDelete p :: res.2)
      else delete_mp3_loop o rest store

/-- `delete_mp3_files`: initialise the storage client (failure aborts the
whole function, caught) and process every link. -/
def delete_mp3_files (o : RetOracle) (links : List (Option String)) (store : List String) :
    List String × List RetEvent :=
  if o.gcsInitOk then delete_mp3_loop o links store else (store, [])

/-- `clean_old_episodes` (`delete.py:167-208`): fetch the old episodes; if
none, stop; delete their `watched_episodes` rows (collecting the safely
cleared UUIDs), delete the `episodes` rows of the cleared UUIDs, then delete
the storage objects of exactly those episodes whose UUID is in the cleared
list. -/
def clean_old_episodes (o : RetOracle) (cutoff : String) (st : RetState) :
    RetState × List RetEvent :=
  let old := get_old_episodes cutoff st
  if old.isEmpty then (st, [])
  else
    let uuids := old.map (fun e => e.id)
    let links := old.map (fun e => e.mp3Link)
    let wres := delete_watched_episodes o uuids st.watchedRows
    let safe := wres.2
    let eres := delete_episodes o wres.1 safe st.episodes
    let mp3s := (uuids.zip links).filterMap
      (fun pr => if pr.1 ∈ safe then some pr.2 else none)
    let mres := delete_mp3_files o mp3s st.store
    (⟨eres.1, wres.1, mres.1⟩, eres.2 ++ mres.2)

/-! State predicates used to phrase the retention claims. -/

/-- All three pieces of an episode's state are gone: no `episodes` row with
its id, no `watched_episodes` row pointing at it, and (when it has a
non-empty `mp3_link`) no bucket object at its derived path. -/
def fully_removed (st : RetState) (e : EpisodeRow) : Bool :=
  st.episodes.all (fun r => r.id != e.id) &&
  (st.watchedRows.countP (fun r => r == e.id) = 0) &&
  (match e.mp3Link with
   | none => true
   | some l => !(st.store.contains (blob_path l)))

/-- The episode's state is untouched between two snapshots: its row presence,
its `watched_episodes` row count and its object's presence are unchanged. -/
def episode_untouched (st0 stF : RetState) (e : EpisodeRow) : Bool :=
  (stF.episodes.contains e == st0.episodes.contains e) &&
  (stF.watchedRows.countP (fun r => r == e.id) == st0.watchedRows.countP (fun r => r == e.id)) &&
  (match e.mp3Link with
   | none => true
   | some l => stF.store.contains (blob_path l) == st0.store.contains (blob_path l))

/-! ## Concrete scenarios used by counterexamples and witnesses -/

/-- One old episode, no watchers; its `episodes`-row delete raises, all other
calls succeed. -/
def c1_oracle : RetOracle :=
  ⟨fun _ => false, fun _ => true, fun _ => false, fun _ => false,
   fun u => u == "d1", fun _ => false, true⟩

def c1_row : EpisodeRow := ⟨"d1", some "https://h/k.mp3", "2024-01-01"⟩

def c1_state : RetState := ⟨[c1_row], [], ["mp3/k.mp3"]⟩

/-- Two old episodes; the dependent delete for the first raises, every call
for the second succeeds. -/
def c2_oracle : RetOracle :=
  ⟨fun u => u == "a1", fun _ => true, fun _ => false, fun _ => false,
   fun _ => false, fun _ => false, true⟩

def c2_row1 : EpisodeRow := ⟨"a1", none, "2024-01-01"⟩

def c2_row2 : EpisodeRow := ⟨"a2", none, "2024-01-02"⟩

def c2_state : RetState := ⟨[c2_row1, c2_row2], ["a1"], []⟩

/-- Ingestion oracle for the duration-fallback scenario: the download
succeeds, the duration probe fails, upload and insert succeed. -/
def c3_oracle : IngestOracle :=
  ⟨fun s => s, fun _ => false, fun _ => true, fun _ => none,
   fun _ => true, fun p => "https://pub/" ++ p, fun _ => false⟩

def c3_item : FeedItem := ⟨"t3", "p3", "d3", "01:02:03", "https://h/ep3.mp3?q=1"⟩

/-- Ingestion oracle for the re-run scenario: dates all convert to
`2024-01-01`, which the database already holds. -/
def c4_oracle : IngestOracle :=
  ⟨fun _ => "2024-01-01", fun _ => false, fun _ => true, fun _ => some 1,
   fun _ => true, fun p => p, fun _ => false⟩

/-- A feed item whose declared duration fails validation but whose converted
publication date already exists in the table. -/
def c4_item : FeedItem := ⟨"t", "raw", "d", "1:2:3", "https://h/x.mp3"⟩

def c4_db : DbState := ⟨[⟨"old", "2024-01-01", "", "u0", DurationVal.num 1, "m0"⟩]⟩

/-- Two old episodes whose links share the basename `f.mp3`; the watched
rows of the second refuse to go away, everything else succeeds. -/
def c5_oracle : RetOracle :=
  ⟨fun _ => false, fun u => !(u == "b2"), fun _ => false, fun _ => false,
   fun _ => false, fun _ => false, true⟩

def c5_row1 : EpisodeRow := ⟨"b1", some "https://h/a/f.mp3", "2024-01-01"⟩

def c5_row2 : EpisodeRow := ⟨"b2", some "https://h/b/f.mp3", "2024-01-02"⟩

def c5_state : RetState := ⟨[c5_row1, c5_row2], ["b2"], ["mp3/f.mp3"]⟩

/-- One old episode with no watchers whose `episodes`-row delete raises while
the storage delete succeeds. -/
def c6_oracle : RetOracle :=
  ⟨fun _ => false, fun _ => true, fun _ => false, fun _ => false,
   fun u => u == "x1", fun _ => false, true⟩

def c6_row : EpisodeRow := ⟨"x1", some "https://h/g.mp3", "2024-01-01"⟩

def c6_state : RetState := ⟨[c6_row], [], ["mp3/g.mp3"]⟩

/-- Fully successful ingestion oracle for the URL-derivation scenario. -/
def c9_oracle : IngestOracle :=
  ⟨fun s => s, fun _ => false, fun _ => true, fun _ => some 100,
   fun _ => true, fun p => "https://pub/" ++ p, fun _ => false⟩

def c9_item : FeedItem := ⟨"t9", "p9", "d9", "00:30:00", "https://host/path/file.mp3?x=1"⟩

/-! ## Helper lemmas: characters and duration strings -/

lemma digit_ne_colon {c : Char} (h : is_ascii_digit c = true) : c ≠ ':' := by
  intro e
  subst e
  exact absurd h (by decide)

lemma digit_not_space {c : Char} (h : is_ascii_digit c = true) : is_python_space c = false := by
  simp only [is_ascii_digit, decide_eq_true_eq] at h
  simp only [is_python_space, decide_eq_false_iff_not]
  omega

lemma py_split_colon_two (g h : Char) (ng : g ≠ ':') (nh : h ≠ ':') :
    py_split_char ':' [g, h] = [[g, h]] := by
  simp [py_split_char, ng, nh]

lemma py_split_colon_two_nl (g h : Char) (ng : g ≠ ':') (nh : h ≠ ':') :
    py_split_char ':' [g, h, '\n'] = [[g, h, '\n']] := by
  simp [py_split_char, ng, nh]

lemma py_split_colon_mid (d e : Char) (tail : List Char) (grp : List Char) (rest : List (List Char))
    (nd : d ≠ ':') (ne' : e ≠ ':') (htail : py_split_char ':' tail = grp :: rest) :
    py_split_char ':' (d :: e :: ':' :: tail) = [d, e] :: grp :: rest := by
  simp [py_split_char, nd, ne', htail]

lemma py_int_two (g h : Char) (hg : is_ascii_digit g = true) (hh : is_ascii_digit h = true) :
    py_int_chars [g, h] = some (digit_val g * 10 + digit_val h) := by
  simp [py_int_chars, py_strip_ws, List.dropWhile, digit_not_space hg, digit_not_space hh, hg, hh]

lemma py_int_two_nl (g h : Char) (hg : is_ascii_digit g = true) (hh : is_ascii_digit h = true) :
    py_int_chars [g, h, '\n'] = some (digit_val g * 10 + digit_val h) := by
  have hnl : is_python_space '\n' = true := by decide
  simp [py_int_chars, py_strip_ws, List.dropWhile, digit_not_space hg, digit_not_space hh,
    hnl, hg, hh]

/-- The eight-character core of the validator agrees with the spec-worded
acceptor on any eight characters. -/
lemma hhmmss_core_eq (a b c d e f g h : Char) :
    (hhmmss_match a b c d e f g h && duration_ranges_ok a b d e g h) =
      spec_hhmmss ⟨[a, b, c, d, e, f, g, h]⟩ := by
  simp only [spec_hhmmss, hhmmss_match, duration_ranges_ok, two_digit_num]
  cases hab : (is_ascii_digit a && is_ascii_digit b) <;>
    cases hde : (is_ascii_digit d && is_ascii_digit e) <;>
    cases hgh : (is_ascii_digit g && is_ascii_digit h) <;>
    cases hc : (c == ':') <;> cases hf : (f == ':') <;>
    simp [Bool.and_assoc]

/-! ## Helper lemmas: retention loops -/

lemma dwe_rows1_sublist (o : RetOracle) (u : String) (rows : List String) :
    (dwe_rows1 o u rows).Sublist rows := by
  unfold dwe_rows1
  split
  · exact List.filter_sublist rows
  · exact List.Sublist.refl rows

lemma countP_filter_self (rows : List String) (u : String) :
    (rows.filter (fun r => r != u)).countP (fun r => r == u) = 0 := by
  rw [List.countP_eq_zero]
  intro a ha
  have h2 := (List.mem_filter.mp ha).2
  simp only [bne_iff_ne, ne_eq] at h2
  simp [h2]

lemma countP_filter_ne (rows : List String) (u v : String) (h : u ≠ v) :
    (rows.filter (fun r => r != v)).countP (fun r => r == u) =
      rows.countP (fun r => r == u) := by
  induction rows with
  | nil => rfl
  | cons a as ih =>
    by_cases hav : a = v
    · subst hav
      have hau : (a == u) = false := by
        simp only [beq_eq_false_iff_ne, ne_eq]
        intro e
        exact h e.symm
      simp [List.filter_cons, List.countP_cons, ih, hau]
    · simp [List.filter_cons, List.countP_cons, hav, ih]

/-- The dependent-delete loop only removes `watched_episodes` rows. -/
lemma dwe_sublist (o : RetOracle) :
    ∀ (l rows : List String), (delete_watched_episodes o l rows).1.Sublist rows := by
  intro l
  induction l with
  | nil => intro rows; exact List.Sublist.refl rows
  | cons u rest ih =>
    intro rows
    simp only [delete_watched_episodes]
    by_cases h1 : o.wdThrow u = true
    · rw [if_pos h1]; exact ih rows
    · rw [if_neg h1]
      by_cases h3 : o.vThrow u = true
      · rw [if_pos h3]; exact (ih _).trans (dwe_rows1_sublist o u rows)
      · rw [if_neg h3]
        by_cases h4 : (dwe_rows1 o u rows).countP (fun r => r == u) = 0
        · rw [if_pos h4]; exact (ih _).trans (dwe_rows1_sublist o u rows)
        · rw [if_neg h4]; exact (ih _).trans (dwe_rows1_sublist o u rows)

/-- A UUID whose dependent delete does not raise, whose verification does
not raise, and whose rows either get removed or were absent ends up in the
safely-cleared list, with no row for it remaining. -/
lemma dwe_safe_mem (o : RetOracle) (u : String) :
    ∀ (l rows : List String), o.wdThrow u = false → o.vThrow u = false → u ∈ l →
    (o.wdEffective u = true ∨ rows.countP (fun r => r == u) = 0) →
    u ∈ (delete_watched_episodes o l rows).2 ∧
      (delete_watched_episodes o l rows).1.countP (fun r => r == u) = 0 := by
  intro l
  induction l with
  | nil => intro rows _ _ hmem _; exact absurd hmem (List.not_mem_nil u)
  | cons v rest ih =>
    intro rows hth hv hmem hdisj
    have hdisj' : o.wdEffective u = true ∨
        (dwe_rows1 o v rows).countP (fun r => r == u) = 0 := by
      rcases hdisj with h | h
      · exact Or.inl h
      · exact Or.inr (Nat.le_zero.mp (h ▸ (dwe_rows1_sublist o v rows).countP_le _))
    by_cases hvu : v = u
    · subst hvu
      simp only [delete_watched_episodes]
      rw [if_neg (by simp [hth]), if_neg (by simp [hv])]
      have hz : (dwe_rows1 o v rows).countP (fun r => r == v) = 0 := by
        unfold dwe_rows1
        rcases hdisj with h | h
        · rw [if_pos h]; exact countP_filter_self rows v
        · split
          · exact countP_filter_self rows v
          · exact h
      rw [if_pos hz]
      exact ⟨List.mem_cons_self v _, Nat.le_zero.mp (hz ▸ (dwe_sublist o rest _).countP_le _)⟩
    · have hmem' : u ∈ rest := by
        rcases List.mem_cons.mp hmem with h | h
        · exact absurd h.symm hvu
        · exact h
      simp only [delete_watched_episodes]
      by_cases h1 : o.wdThrow v = true
      · rw [if_pos h1]; exact ih rows hth hv hmem' hdisj
      · rw [if_neg h1]
        by_cases h3 : o.vThrow v = true
        · rw [if_pos h3]; exact ih _ hth hv hmem' hdisj'
        · rw [if_neg h3]
          by_cases h4 : (dwe_rows1 o v rows).countP (fun r => r == v) = 0
          · rw [if_pos h4]
            rcases ih _ hth hv hmem' hdisj' with ⟨hm, hc⟩
            exact ⟨List.mem_cons_of_mem v hm, hc⟩
          · rw [if_neg h4]; exact ih _ hth hv hmem' hdisj'

/-- A UUID whose dependent delete runs without raising but leaves its rows
behind (the delete is ineffective and rows were present) is never added to
the safely-cleared list, and its rows survive the whole loop. -/
lemma dwe_not_safe (o : RetOracle) (u : String) :
    ∀ (l rows : List String), o.wdThrow u = false → o.vThrow u = false →
    o.wdEffective u = false → rows.countP (fun r => r == u) ≠ 0 →
    u ∉ (delete_watched_episodes o l rows).2 ∧
      (delete_watched_episodes o l rows).1.countP (fun r => r == u) =
        rows.countP (fun r => r == u) := by
  intro l
  induction l with
  | nil => intro rows _ _ _ _; exact ⟨List.not_mem_nil u, rfl⟩
  | cons v rest ih =>
    intro rows hth hv heff hcnt
    by_cases hvu : v = u
    · subst hvu
      simp only [delete_watched_episodes]
      rw [if_neg (by simp [hth]), if_neg (by simp [hv])]
      have hr1 : dwe_rows1 o v rows = rows := by
        unfold dwe_rows1
        rw [if_neg (by simp [heff])]
      rw [hr1, if_neg hcnt]
      exact ih rows hth hv heff hcnt
    · have hpres : (dwe_rows1 o v rows).countP (fun r => r == u) =
          rows.countP (fun r => r == u) := by
        unfold dwe_rows1
        split
        · exact countP_filter_ne rows u v (fun e => hvu e.symm)
        · rfl
      have hcnt' : (dwe_rows1 o v rows).countP (fun r => r == u) ≠ 0 := by
        rw [hpres]; exact hcnt
      simp only [delete_watched_episodes]
      by_cases h1 : o.wdThrow v = true
      · rw [if_pos h1]; exact ih rows hth hv heff hcnt
      · rw [if_neg h1]
        by_cases h3 : o.vThrow v = true
        · rw [if_pos h3]
          rcases ih _ hth hv heff hcnt' with ⟨hm, hc⟩
          exact ⟨hm, by rw [hc, hpres]⟩
        · rw [if_neg h3]
          by_cases h4 : (dwe_rows1 o v rows).countP (fun r => r == v) = 0
          · rw [if_pos h4]
            rcases ih _ hth hv heff hcnt' with ⟨hm, hc⟩
            refine ⟨?_, by rw [hc, hpres]⟩
            intro hmem
            rcases List.mem_cons.mp hmem with h | h
            · exact hvu h.symm
            · exact hm h
          · rw [if_neg h4]
            rcases ih _ hth hv heff hcnt' with ⟨hm, hc⟩
            exact ⟨hm, by rw [hc, hpres]⟩

/-- The episode-delete loop only removes `episodes` rows. -/
lemma de_mem (o : RetOracle) (w : List String) :
    ∀ (l : List String) (eps : List EpisodeRow) (r : EpisodeRow),
      r ∈ (delete_episodes o w l eps).1 → r ∈ eps := by
  intro l
  induction l with
  | nil => intro eps r h; exact h
  | cons u rest ih =>
    intro eps r h
    simp only [delete_episodes] at h
    by_cases h1 : o.epCheckThrow u = true
    · rw [if_pos h1] at h; exact ih eps r h
    · rw [if_neg h1] at h
      by_cases h2 : w.countP (fun x => x == u) ≠ 0
      · rw [if_pos h2] at h; exact ih eps r h
      · rw [if_neg h2] at h
        by_cases h3 : o.epThrow u = true
        · rw [if_pos h3] at h; exact ih eps r h
        · rw [if_neg h3] at h
          exact (List.mem_filter.mp (ih _ r h)).1

/-- A row whose id is never in the processed list survives the
episode-delete loop. -/
lemma de_keep (o : RetOracle) (w : List String) :
    ∀ (l : List String) (eps : List EpisodeRow) (r : EpisodeRow),
      r ∈ eps → r.id ∉ l → r ∈ (delete_episodes o w l eps).1 := by
  intro l
  induction l with
  | nil => intro eps r h _; exact h
  | cons u rest ih =>
    intro eps r hr hid
    have hne : r.id ≠ u := fun e => hid (e ▸ List.mem_cons_self u rest)
    have hrest : r.id ∉ rest := fun h => hid (List.mem_cons_of_mem u h)
    simp only [delete_episodes]
    by_cases h1 : o.epCheckThrow u = true
    · rw [if_pos h1]; exact ih eps r hr hrest
    · rw [if_neg h1]
      by_cases h2 : w.countP (fun x => x == u) ≠ 0
      · rw [if_pos h2]; exact ih eps r hr hrest
      · rw [if_neg h2]
        by_cases h3 : o.epThrow u = true
        · rw [if_pos h3]; exact ih eps r hr hrest
        · rw [if_neg h3]
          exact ih _ r (List.mem_filter.mpr ⟨hr, by simp [bne_iff_ne, hne]⟩) hrest

/-- A UUID in the processed list with no remaining watched rows and no
raising calls has its rows removed and its delete event emitted. -/
lemma de_removes (o : RetOracle) (w : List String) :
    ∀ (l : List String) (eps : List EpisodeRow) (u : String), u ∈ l →
      w.countP (fun r => r == u) = 0 → o.epCheckThrow u = false → o.epThrow u = false →
      (∀ r ∈ (delete_episodes o w l eps).1, r.id ≠ u) ∧
        RetEvent.dbDelete u ∈ (delete_episodes o w l eps).2 := by
  intro l
  induction l with
  | nil => intro eps u hmem _ _ _; exact absurd hmem (List.not_mem_nil u)
  | cons v rest ih =>
    intro eps u hmem hw hc hthr
    by_cases hvu : v = u
    · subst hvu
      simp only [delete_episodes]
      rw [if_neg (by simp [hc]), if_neg (by simp [hw]), if_neg (by simp [hthr])]
      refine ⟨?_, List.mem_cons_self _ _⟩
      intro r hrmem
      have := List.mem_filter.mp (de_mem o w rest _ r hrmem)
      simpa [bne_iff_ne] using this.2
    · have hmem' : u ∈ rest := by
        rcases List.mem_cons.mp hmem with h | h
        · exact absurd h.symm hvu
        · exact h
      simp only [delete_episodes]
      by_cases h1 : o.epCheckThrow v = true
      · rw [if_pos h1]; exact ih eps u hmem' hw hc hthr
      · rw [if_neg h1]
        by_cases h2 : w.countP (fun x => x == v) ≠ 0
        · rw [if_pos h2]; exact ih eps u hmem' hw hc hthr
        · rw [if_neg h2]
          by_cases h3 : o.epThrow v = true
          · rw [if_pos h3]; exact ih eps u hmem' hw hc hthr
          · rw [if_neg h3]
            rcases ih _ u hmem' hw hc hthr with ⟨ha, hb⟩
            exact ⟨ha, List.mem_cons_of_mem _ hb⟩

/-- Every event of the episode-delete loop is a database delete. -/
lemma de_events (o : RetOracle) (w : List String) :
    ∀ (l : List String) (eps : List EpisodeRow) (ev : RetEvent),
      ev ∈ (delete_episodes o w l eps).2 → ∃ u, ev = RetEvent.dbDelete u := by
  intro l
  induction l with
  | nil => intro eps ev h; exact absurd h (List.not_mem_nil ev)
  | cons u rest ih =>
    intro eps ev h
    simp only [delete_episodes] at h
    by_cases h1 : o.epCheckThrow u = true
    · rw [if_pos h1] at h; exact ih eps ev h
    · rw [if_neg h1] at h
      by_cases h2 : w.countP (fun x => x == u) ≠ 0
      · rw [if_pos h2] at h; exact ih eps ev h
      · rw [if_neg h2] at h
        by_cases h3 : o.epThrow u = true
        · rw [if_pos h3] at h; exact ih eps ev h
        · rw [if_neg h3] at h
          rcases List.mem_cons.mp h with h | h
          · exact ⟨u, h⟩
          · exact ih _ ev h

/-- The storage loop only removes objects. -/
lemma dmf_loop_mem (o : RetOracle) :
    ∀ (links : List (Option String)) (store : List String) (q : String),
      q ∈ (delete_mp3_loop o links store).1 → q ∈ store := by
  intro links
  induction links with
  | nil => intro store q h; exact h
  | cons x rest ih =>
    intro store q h
    match x with
    | none => exact ih store q h
    | some l =>
      simp only [delete_mp3_loop] at h
      by_cases h1 : l = ""
      · rw [if_pos h1] at h; exact ih store q h
      · rw [if_neg h1] at h
        by_cases h2 : o.blobThrow l = true
        · rw [if_pos h2] at h; exact ih store q h
        · rw [if_neg h2] at h
          by_cases h3 : store.contains (blob_path l) = true
          · rw [if_pos h3] at h
            exact (List.mem_filter.mp (ih _ q h)).1
          · rw [if_neg h3] at h; exact ih store q h

/-- A non-empty link processed without raising leaves no object at its
derived path. -/
lemma dmf_loop_not_mem (o : RetOracle) :
    ∀ (links : List (Option String)) (store : List String) (l : String),
      some l ∈ links → l ≠ "" → o.blobThrow l = false →
      blob_path l ∉ (delete_mp3_loop o links store).1 := by
  intro links
  induction links with
  | nil => intro store l hmem; exact absurd hmem (List.not_mem_nil _)
  | cons x rest ih =>
    intro store l hmem hl hbt
    match x with
    | none =>
      have hmem' : some l ∈ rest := by
        rcases List.mem_cons.mp hmem with h | h
        · exact absurd h (by simp)
        · exact h
      exact ih store l hmem' hl hbt
    | some l' =>
      simp only [delete_mp3_loop]
      by_cases h1 : l' = ""
      · have hmem' : some l ∈ rest := by
          rcases List.mem_cons.mp hmem with h | h
          · exact absurd (by injection h) (h1 ▸ hl)
          · exact h
        rw [if_pos h1]
        exact ih store l hmem' hl hbt
      · rw [if_neg h1]
        by_cases h2 : o.blobThrow l' = true
        · have hmem' : some l ∈ rest := by
            rcases List.mem_cons.mp hmem with h | h
            · have : l = l' := by injection h
              rw [this] at hbt
              rw [hbt] at h2
              exact absurd h2 (by simp)
            · exact h
          rw [if_pos h2]
          exact ih store l hmem' hl hbt
        · rw [if_neg h2]
          by_cases h3 : store.contains (blob_path l') = true
          · rw [if_pos h3]
            by_cases hll : l = l'
            · subst hll
              intro hmem2
              have h4 := List.mem_filter.mp
                (dmf_loop_mem o rest _ _ hmem2)
              simp [bne_iff_ne] at h4
            · have hmem' : some l ∈ rest := by
                rcases List.mem_cons.mp hmem with h | h
                · exact absurd (by injection h) hll
                · exact h
              exact ih _ l hmem' hl hbt
          · rw [if_neg h3]
            by_cases hll : l = l'
            · subst hll
              intro hmem2
              exact h3 (List.elem_iff.mpr (dmf_loop_mem o rest store _ hmem2))
            · have hmem' : some l ∈ rest := by
                rcases List.mem_cons.mp hmem with h | h
                · exact absurd (by injection h) hll
                · exact h
              exact ih store l hmem' hl hbt

/-- A non-empty link processed without raising whose object is present
yields a storage-delete event at its derived path. -/
lemma dmf_loop_event (o : RetOracle) :
    ∀ (links : List (Option String)) (store : List String) (l : String),
      some l ∈ links → l ≠ "" → o.blobThrow l = false → blob_path l ∈ store →
      RetEvent.blobDelete (blob_path l) ∈ (delete_mp3_loop o links store).2 := by
  intro links
  induction links with
  | nil => intro store l hmem; exact absurd hmem (List.not_mem_nil _)
  | cons x rest ih =>
    intro store l hmem hl hbt hstore
    match x with
    | none =>
      have hmem' : some l ∈ rest := by
        rcases List.mem_cons.mp hmem with h | h
        · exact absurd h (by simp)
        · exact h
      exact ih store l hmem' hl hbt hstore
    | some l' =>
      simp only [delete_mp3_loop]
      by_cases h1 : l' = ""
      · have hmem' : some l ∈ rest := by
          rcases List.mem_cons.mp hmem with h | h
          · exact absurd (by injection h) (h1 ▸ hl)
          · exact h
        rw [if_pos h1]
        exact ih store l hmem' hl hbt hstore
      · rw [if_neg h1]
        by_cases h2 : o.blobThrow l' = true
        · have hmem' : some l ∈ rest := by
            rcases List.mem_cons.mp hmem with h | h
            · have : l = l' := by injection h
              rw [this] at hbt
              rw [hbt] at h2
              exact absurd h2 (by simp)
            · exact h
          rw [if_pos h2]
          exact ih store l hmem' hl hbt hstore
        · rw [if_neg h2]
          by_cases h3 : store.contains (blob_path l') = true
          · rw [if_pos h3]
            by_cases hpp : blob_path l' = blob_path l
            · exact hpp ▸ List.mem_cons_self _ _
            · have hmem' : some l ∈ rest := by
                rcases List.mem_cons.mp hmem with h | h
                · exact absurd (congrArg blob_path (by injection h : l = l')).symm hpp
                · exact h
              have hstore' : blob_path l ∈ store.filter (fun q => q != blob_path l') :=
                List.mem_filter.mpr ⟨hstore, by simp [bne_iff_ne]; exact fun e => hpp e.symm⟩
              exact List.mem_cons_of_mem _ (ih _ l hmem' hl hbt hstore')
          · rw [if_neg h3]
            have hmem' : some l ∈ rest := by
              rcases List.mem_cons.mp hmem with h | h
              · have hll : l = l' := by injection h
                exact absurd (List.elem_iff.mpr (hll ▸ hstore)) h3
              · exact h
            exact ih store l hmem' hl hbt hstore

/-- Every event of the storage loop is a storage delete. -/
lemma dmf_loop_events (o : RetOracle) :
    ∀ (links : List (Option String)) (store : List String) (ev : RetEvent),
      ev ∈ (delete_mp3_loop o links store).2 → ∃ p, ev = RetEvent.blobDelete p := by
  intro links
  induction links with
  | nil => intro store ev h; exact absurd h (List.not_mem_nil ev)
  | cons x rest ih =>
    intro store ev h
    match x with
    | none => exact ih store ev h
    | some l =>
      simp only [delete_mp3_loop] at h
      by_cases h1 : l = ""
      · rw [if_pos h1] at h; exact ih store ev h
      · rw [if_neg h1] at h
        by_cases h2 : o.blobThrow l = true
        · rw [if_pos h2] at h; exact ih store ev h
        · rw [if_neg h2] at h
          by_cases h3 : store.contains (blob_path l) = true
          · rw [if_pos h3] at h
            rcases List.mem_cons.mp h with h | h
            · exact ⟨blob_path l, h⟩
            · exact ih _ ev h
          · rw [if_neg h3] at h; exact ih store ev h

/-- An object whose path matches no processed link is untouched by the
storage loop. -/
lemma dmf_loop_preserve (o : RetOracle) :
    ∀ (links : List (Option String)) (store : List String) (p : String),
      (∀ l, some l ∈ links → blob_path l ≠ p) →
      (p ∈ (delete_mp3_loop o links store).1 ↔ p ∈ store) := by
  intro links
  induction links with
  | nil => intro store p _; exact Iff.rfl
  | cons x rest ih =>
    intro store p hne
    have hne' : ∀ l, some l ∈ rest → blob_path l ≠ p :=
      fun l h => hne l (List.mem_cons_of_mem x h)
    match x with
    | none => exact ih store p hne'
    | some l =>
      simp only [delete_mp3_loop]
      by_cases h1 : l = ""
      · rw [if_pos h1]; exact ih store p hne'
      · rw [if_neg h1]
        by_cases h2 : o.blobThrow l = true
        · rw [if_pos h2]; exact ih store p hne'
        · rw [if_neg h2]
          by_cases h3 : store.contains (blob_path l) = true
          · rw [if_pos h3]
            have hlp : blob_path l ≠ p := hne l (List.mem_cons_self _ _)
            rw [ih _ p hne']
            constructor
            · intro h; exact (List.mem_filter.mp h).1
            · intro h
              exact List.mem_filter.mpr ⟨h, by simp [bne_iff_ne]; exact fun e => hlp e.symm⟩
          · rw [if_neg h3]; exact ih store p hne'

/-! ## Claim theorems: duration validation and conversion -/

/-- Claim C7 counterexample: `validate_duration_format` returns `true` on
`"12:00:00\n"`, a nine-character string that does not match `HH:MM:SS` with
two digits per field — Python's `$` also matches just before a newline that
ends the string, so the claimed "exactly" fails. -/
theorem c7_counterexample :
    validate_duration_format "12:00:00\n" = true ∧ spec_hhmmss "12:00:00\n" = false := by
  exact ⟨by decide, by decide⟩

/-- Claim C7 (amended): `validate_duration_format` returns `true` exactly on
strings matching `HH:MM:SS` (two digits per field, hours 0–23, minutes and
seconds 0–59) optionally followed by one trailing newline; every other
string (including `"25:00:00"`, `"12:60:00"` and `"1:2:3"`) yields `false`. -/
theorem c7_amended : ∀ s, validate_duration_format s = spec_accepts s := by
  intro s
  obtain ⟨l⟩ := s
  match l with
  | [] => rfl
  | [_] => rfl
  | [_, _] => rfl
  | [_, _, _] => rfl
  | [_, _, _, _] => rfl
  | [_, _, _, _, _] => rfl
  | [_, _, _, _, _, _] => rfl
  | [_, _, _, _, _, _, _] => rfl
  | [a, b, c, d, e, f, g, h] => exact hhmmss_core_eq a b c d e f g h
  | [a, b, c, d, e, f, g, h, n] =>
    exact congrArg (fun x => (n == '\n') && x) (hhmmss_core_eq a b c d e f g h)
  | _ :: _ :: _ :: _ :: _ :: _ :: _ :: _ :: _ :: _ :: _ => rfl

/-- Claim C8: `convert_in_seconds "01:02:03" = 3723`, and on every string the
validator accepts, `convert_in_seconds` returns
`hours*3600 + minutes*60 + seconds` read off the three two-digit fields. -/
theorem c8_convert_correct :
    convert_in_seconds "01:02:03" = Except.ok 3723 ∧
    ∀ s, validate_duration_format s = true →
      convert_in_seconds s = Except.ok (spec_seconds s) := by
  refine ⟨rfl, ?_⟩
  intro s hs
  obtain ⟨l⟩ := s
  match l with
  | [] => exact absurd hs (by decide)
  | [_] => exact Bool.noConfusion hs
  | [_, _] => exact Bool.noConfusion hs
  | [_, _, _] => exact Bool.noConfusion hs
  | [_, _, _, _] => exact Bool.noConfusion hs
  | [_, _, _, _, _] => exact Bool.noConfusion hs
  | [_, _, _, _, _, _] => exact Bool.noConfusion hs
  | [_, _, _, _, _, _, _] => exact Bool.noConfusion hs
  | _ :: _ :: _ :: _ :: _ :: _ :: _ :: _ :: _ :: _ :: _ => exact Bool.noConfusion hs
  | [a, b, c, d, e, f, g, h] =>
    have hs8 : (hhmmss_match a b c d e f g h && duration_ranges_ok a b d e g h) = true := hs
    have hcore := (Bool.and_eq_true _ _).mp hs8
    have hshape := hcore.1
    simp only [hhmmss_match, Bool.and_eq_true, beq_iff_eq] at hshape
    obtain ⟨⟨⟨⟨hab, hcol1⟩, hde⟩, hcol2⟩, hgh⟩ := hshape
    obtain ⟨ha, hb⟩ := hab
    obtain ⟨hd, he⟩ := hde
    obtain ⟨hg, hh⟩ := hgh
    subst hcol1
    subst hcol2
    show convert_in_seconds ⟨[a, b, ':', d, e, ':', g, h]⟩ = _
    rw [convert_in_seconds, if_neg (by simp [hs])]
    have hsplit : py_split_char ':' [a, b, ':', d, e, ':', g, h] = [[a, b], [d, e], [g, h]] := by
      rw [py_split_colon_mid a b _ _ _ (digit_ne_colon ha) (digit_ne_colon hb)
        (py_split_colon_mid d e _ _ _ (digit_ne_colon hd) (digit_ne_colon he)
          (py_split_colon_two g h (digit_ne_colon hg) (digit_ne_colon hh)))]
    show (match (py_split_char ':' [a, b, ':', d, e, ':', g, h]).map py_int_chars with
      | [some h', some m', some s'] => Except.ok (h' * 3600 + m' * 60 + s')
      | _ => Except.error "unpacking or int conversion failed") = _
    rw [hsplit]
    simp only [List.map, py_int_two a b ha hb, py_int_two d e hd he, py_int_two g h hg hh]
    rfl
  | [a, b, c, d, e, f, g, h, n] =>
    have hs9 : ((n == '\n') &&
        (hhmmss_match a b c d e f g h && duration_ranges_ok a b d e g h)) = true := hs
    have hcore := (Bool.and_eq_true _ _).mp hs9
    have hnl : n = '\n' := by simpa [beq_iff_eq] using hcore.1
    have hshape := ((Bool.and_eq_true _ _).mp hcore.2).1
    simp only [hhmmss_match, Bool.and_eq_true, beq_iff_eq] at hshape
    obtain ⟨⟨⟨⟨hab, hcol1⟩, hde⟩, hcol2⟩, hgh⟩ := hshape
    obtain ⟨ha, hb⟩ := hab
    obtain ⟨hd, he⟩ := hde
    obtain ⟨hg, hh⟩ := hgh
    subst hcol1
    subst hcol2
    subst hnl
    show convert_in_seconds ⟨[a, b, ':', d, e, ':', g, h, '\n']⟩ = _
    rw [convert_in_seconds, if_neg (by simp [hs])]
    have hsplit : py_split_char ':' [a, b, ':', d, e, ':', g, h, '\n'] =
        [[a, b], [d, e], [g, h, '\n']] := by
      rw [py_split_colon_mid a b _ _ _ (digit_ne_colon ha) (digit_ne_colon hb)
        (py_split_colon_mid d e _ _ _ (digit_ne_colon hd) (digit_ne_colon he)
          (py_split_colon_two_nl g h (digit_ne_colon hg) (digit_ne_colon hh)))]
    show (match (py_split_char ':' [a, b, ':', d, e, ':', g, h, '\n']).map py_int_chars with
      | [some h', some m', some s'] => Except.ok (h' * 3600 + m' * 60 + s')
      | _ => Except.error "unpacking or int conversion failed") = _
    rw [hsplit]
    simp only [List.map, py_int_two a b ha hb, py_int_two d e hd he,
      py_int_two_nl g h hg hh]
    rfl

/-- Claim C8 witness: the general part of `c8_convert_correct` applied to the
concrete accepted string `"01:02:03\n"`. -/
theorem c8_convert_correct_witness :
    validate_duration_format "01:02:03\n" = true ∧
    convert_in_seconds "01:02:03\n" = Except.ok (spec_seconds "01:02:03\n") :=
  ⟨by decide, c8_convert_correct.2 "01:02:03\n" (by decide)⟩

/-! ## Claim theorems: retention -/

lemma old_nonempty {cutoff : String} {st : RetState} {e : EpisodeRow}
    (h : e ∈ get_old_episodes cutoff st) : (get_old_episodes cutoff st).isEmpty = false := by
  cases hlist : get_old_episodes cutoff st with
  | nil => rw [hlist] at h; exact absurd h (List.not_mem_nil e)
  | cons x xs => rfl

/-- The links handed to `delete_mp3_files` include the link of every old
episode whose UUID was safely cleared. -/
lemma mp3s_mem_of_safe (old : List EpisodeRow) (safe : List String) (e : EpisodeRow)
    (he : e ∈ old) (hs : e.id ∈ safe) :
    e.mp3Link ∈ ((old.map (fun r => r.id)).zip (old.map (fun r => r.mp3Link))).filterMap
      (fun pr => if pr.1 ∈ safe then some pr.2 else none) := by
  rw [List.zip_map', List.filterMap_map]
  exact List.mem_filterMap.mpr ⟨e, he, by simp [hs]⟩

/-- Every link handed to `delete_mp3_files` is the link of some old episode
whose UUID was safely cleared. -/
lemma mp3s_src (old : List EpisodeRow) (safe : List String) (x : Option String)
    (hx : x ∈ ((old.map (fun r => r.id)).zip (old.map (fun r => r.mp3Link))).filterMap
      (fun pr => if pr.1 ∈ safe then some pr.2 else none)) :
    ∃ e, e ∈ old ∧ x = e.mp3Link ∧ e.id ∈ safe := by
  rw [List.zip_map', List.filterMap_map] at hx
  rcases List.mem_filterMap.mp hx with ⟨e, he, hfe⟩
  by_cases hs : e.id ∈ safe
  · refine ⟨e, he, ?_, hs⟩
    simp only [Function.comp, hs, if_pos] at hfe
    exact (Option.some.injEq _ _ ▸ hfe).symm
  · simp only [Function.comp, hs, if_neg, if_false] at hfe
    exact absurd hfe (by simp)

/-- Claim C2 counterexample: with two old episodes where the dependent
delete for `"a1"` raises, the run still processes `"a2"` afterwards — its
`episodes` row is deleted — so the exception was caught, not re-raised, and
the run was not halted. -/
theorem c2_counterexample :
    c2_oracle.wdThrow "a1" = true ∧
    (clean_old_episodes c2_oracle "2025-01-01" c2_state).1.episodes = [c2_row1] ∧
    (clean_old_episodes c2_oracle "2025-01-01" c2_state).1.watchedRows = ["a1"] := by
  exact ⟨rfl, by decide, by decide⟩

/-- Claim C2 (amended): an exception during the dependent-delete step of one
episode is caught and logged like any other per-episode failure; it does not
halt the run — any other old episode whose own calls succeed is still fully
processed (its `episodes` row is deleted). -/
theorem c2_amended (o : RetOracle) (cutoff : String) (st : RetState) (a : String) (b : EpisodeRow)
    (_ha : o.wdThrow a = true) (_hamem : a ∈ (get_old_episodes cutoff st).map (fun e => e.id))
    (hb : b ∈ st.episodes) (hbold : date_lt b.pubDate cutoff = true)
    (h1 : o.wdThrow b.id = false) (h2 : o.vThrow b.id = false)
    (h3 : o.wdEffective b.id = true)
    (h4 : o.epCheckThrow b.id = false) (h5 : o.epThrow b.id = false) :
    (clean_old_episodes o cutoff st).1.episodes.all (fun r => r.id != b.id) = true := by
  have hbmem : b ∈ get_old_episodes cutoff st := List.mem_filter.mpr ⟨hb, hbold⟩
  have hne : (get_old_episodes cutoff st).isEmpty = false := old_nonempty hbmem
  have hid : b.id ∈ (get_old_episodes cutoff st).map (fun e => e.id) :=
    List.mem_map_of_mem _ hbmem
  have hsafe := dwe_safe_mem o b.id _ st.watchedRows h1 h2 hid (Or.inl h3)
  have hrem := de_removes o
    (delete_watched_episodes o ((get_old_episodes cutoff st).map (fun e => e.id)) st.watchedRows).1
    (delete_watched_episodes o ((get_old_episodes cutoff st).map (fun e => e.id)) st.watchedRows).2
    st.episodes b.id hsafe.1 hsafe.2 h4 h5
  simp only [clean_old_episodes, hne, Bool.false_eq_true, if_false]
  rw [List.all_eq_true]
  intro r hr
  simpa [bne_iff_ne] using hrem.1 r hr

/-- Claim C2 witness: the amended claim at the concrete two-episode run of
`c2_counterexample`: episode `"a2"` is fully processed although the
dependent delete for `"a1"` raised. -/
theorem c2_amended_witness :
    c2_oracle.wdThrow "a1" = true ∧
    (clean_old_episodes c2_oracle "2025-01-01" c2_state).1.episodes.all
      (fun r => r.id != c2_row2.id) = true :=
  ⟨rfl, c2_amended c2_oracle "2025-01-01" c2_state "a1" c2_row2 rfl (by decide) (by decide)
    (by decide) (by decide) (by decide) (by decide) (by decide) (by decide)⟩

/-- Claim C1 counterexample: one old episode with no watchers; its
`episodes`-row delete raises while the storage delete succeeds. After the
completed run the row is still present but the audio object is gone — a
partial combination the claim rules out (neither "all three absent" nor
"all three unchanged" holds). -/
theorem c1_counterexample :
    date_lt c1_row.pubDate "2025-01-01" = true ∧
    (clean_old_episodes c1_oracle "2025-01-01" c1_state).1 =
      ⟨[c1_row], [], []⟩ ∧
    (fully_removed (clean_old_episodes c1_oracle "2025-01-01" c1_state).1 c1_row ||
     episode_untouched c1_state (clean_old_episodes c1_oracle "2025-01-01" c1_state).1 c1_row)
      = false := by
  exact ⟨by decide, by decide, by decide⟩

/-- Claim C1 (amended): provided no call of the run fails (no step raises,
every dependent delete takes effect, the storage client initialises), a
completed retention run leaves every old episode fully removed — `episodes`
row absent, `watched_episodes` rows absent, audio object absent — so in
particular in one of the claim's two states and never in a partial one.
(When a step fails, partial combinations such as the row surviving its
deleted audio object are possible: see the counterexample.) -/
theorem c1_amended (o : RetOracle) (cutoff : String) (st : RetState) (e : EpisodeRow)
    (hnf : o.NoFail) (he : e ∈ st.episodes) (hold : date_lt e.pubDate cutoff = true)
    (hlink : ∀ l, e.mp3Link = some l → l ≠ "") :
    fully_removed (clean_old_episodes o cutoff st).1 e = true := by
  obtain ⟨nf1, nf2, nf3, nf4, nf5, nf6, nf7⟩ := hnf
  have hemem : e ∈ get_old_episodes cutoff st := List.mem_filter.mpr ⟨he, hold⟩
  have hne : (get_old_episodes cutoff st).isEmpty = false := old_nonempty hemem
  have hid : e.id ∈ (get_old_episodes cutoff st).map (fun x => x.id) :=
    List.mem_map_of_mem _ hemem
  have hsafe := dwe_safe_mem o e.id _ st.watchedRows (nf1 _) (nf3 _) hid (Or.inl (nf2 _))
  have hrem := de_removes o
    (delete_watched_episodes o ((get_old_episodes cutoff st).map (fun x => x.id)) st.watchedRows).1
    (delete_watched_episodes o ((get_old_episodes cutoff st).map (fun x => x.id)) st.watchedRows).2
    st.episodes e.id hsafe.1 hsafe.2 (nf4 _) (nf5 _)
  simp only [clean_old_episodes, hne, Bool.false_eq_true, if_false]
  simp only [fully_removed, Bool.and_eq_true]
  refine ⟨⟨?_, ?_⟩, ?_⟩
  · rw [List.all_eq_true]
    intro r hr
    simpa [bne_iff_ne] using hrem.1 r hr
  · simpa using hsafe.2
  · cases hml : e.mp3Link with
    | none => rfl
    | some l =>
      have hmem : some l ∈ (((get_old_episodes cutoff st).map (fun x => x.id)).zip
          ((get_old_episodes cutoff st).map (fun x => x.mp3Link))).filterMap
          (fun pr => if pr.1 ∈ (delete_watched_episodes o
            ((get_old_episodes cutoff st).map (fun x => x.id)) st.watchedRows).2
            then some pr.2 else none) := by
        have := mp3s_mem_of_safe (get_old_episodes cutoff st)
          (delete_watched_episodes o
            ((get_old_episodes cutoff st).map (fun x => x.id)) st.watchedRows).2
          e hemem hsafe.1
        rwa [hml] at this
      have hnm := dmf_loop_not_mem o _ st.store l hmem (hlink l hml) (nf6 l)
      simp only [delete_mp3_files, nf7, if_pos]
      rw [Bool.not_eq_true']
      rw [← Bool.not_eq_true]
      exact fun hc => hnm (List.elem_iff.mp hc)

/-- Claim C1 witness: a failure-free run on one old episode with a watcher
row and a stored object removes all three pieces. -/
theorem c1_amended_witness :
    RetOracle.NoFail ⟨fun _ => false, fun _ => true, fun _ => false, fun _ => false,
      fun _ => false, fun _ => false, true⟩ ∧
    fully_removed
      (clean_old_episodes
        ⟨fun _ => false, fun _ => true, fun _ => false, fun _ => false,
         fun _ => false, fun _ => false, true⟩
        "2025-01-01"
        ⟨[⟨"w1", some "https://h/w1.mp3", "2024-03-01"⟩], ["w1"], ["mp3/w1.mp3"]⟩).1
      ⟨"w1", some "https://h/w1.mp3", "2024-03-01"⟩ = true :=
  ⟨⟨fun _ => rfl, fun _ => rfl, fun _ => rfl, fun _ => rfl, fun _ => rfl, fun _ => rfl, rfl⟩,
   c1_amended _ "2025-01-01" _ _
     ⟨fun _ => rfl, fun _ => rfl, fun _ => rfl, fun _ => rfl, fun _ => rfl, fun _ => rfl, rfl⟩
     (by decide) (by decide)
     (fun l hl => by
       have : l = "https://h/w1.mp3" := by
         have := hl.symm
         injection this
       rw [this]
       decide)⟩

/-- Claim C5 counterexample: two old episodes whose `mp3_link`s share the
basename `f.mp3` and hence the same bucket path. The second episode's
watched rows survive the delete attempt (the verification re-query sees one
row), so it is excluded from the safe set and its `episodes` row is kept —
but deleting the first episode's object removes the shared path, so the
second episode's audio object is gone: the run touched it. -/
theorem c5_counterexample :
    c5_oracle.wdEffective "b2" = false ∧
    blob_path "https://h/b/f.mp3" ∈ c5_state.store ∧
    (clean_old_episodes c5_oracle "2025-01-01" c5_state).1 =
      ⟨[c5_row2], ["b2"], []⟩ := by
  exact ⟨rfl, by decide, by decide⟩

/-- Claim C5 (amended): an old episode whose watched rows remain after the
delete attempt is excluded from the safe set; its `episodes` row survives
the run, and — provided no other old episode's `mp3_link` resolves to the
same bucket path — its audio object's presence is unchanged. -/
theorem c5_amended (o : RetOracle) (cutoff : String) (st : RetState) (e : EpisodeRow)
    (he : e ∈ st.episodes) (hold : date_lt e.pubDate cutoff = true)
    (h1 : o.wdThrow e.id = false) (h2 : o.vThrow e.id = false)
    (h3 : o.wdEffective e.id = false)
    (h4 : st.watchedRows.countP (fun r => r == e.id) ≠ 0)
    (hnc : ∀ e', e' ∈ st.episodes → date_lt e'.pubDate cutoff = true → e'.id ≠ e.id →
      ∀ l l', e.mp3Link = some l → e'.mp3Link = some l' → blob_path l' ≠ blob_path l) :
    e ∈ (clean_old_episodes o cutoff st).1.episodes ∧
    (∀ l, e.mp3Link = some l →
      ((blob_path l ∈ (clean_old_episodes o cutoff st).1.store) ↔ blob_path l ∈ st.store)) := by
  have hemem : e ∈ get_old_episodes cutoff st := List.mem_filter.mpr ⟨he, hold⟩
  have hne : (get_old_episodes cutoff st).isEmpty = false := old_nonempty hemem
  have hnot := dwe_not_safe o e.id ((get_old_episodes cutoff st).map (fun x => x.id))
    st.watchedRows h1 h2 h3 h4
  simp only [clean_old_episodes, hne, Bool.false_eq_true, if_false]
  constructor
  · exact de_keep o _ _ st.episodes e he hnot.1
  · intro l hml
    have hother : ∀ l', some l' ∈ (((get_old_episodes cutoff st).map (fun x => x.id)).zip
        ((get_old_episodes cutoff st).map (fun x => x.mp3Link))).filterMap
        (fun pr => if pr.1 ∈ (delete_watched_episodes o
          ((get_old_episodes cutoff st).map (fun x => x.id)) st.watchedRows).2
          then some pr.2 else none) →
        blob_path l' ≠ blob_path l := by
      intro l' hmem
      rcases mp3s_src _ _ _ hmem with ⟨e', he', hx, hsafe'⟩
      have hfilter := List.mem_filter.mp he'
      have hne2 : e'.id ≠ e.id := fun hc => hnot.1 (hc ▸ hsafe')
      exact hnc e' hfilter.1 hfilter.2 hne2 l l' hml hx.symm
    by_cases hg : o.gcsInitOk = true
    · simp only [delete_mp3_files, hg, if_pos]
      exact dmf_loop_preserve o _ st.store (blob_path l) hother
    · simp only [delete_mp3_files, hg, Bool.false_eq_true, if_false]

/-- Claim C5 witness: the amended claim at a concrete run with two old
episodes with distinct basenames; the not-safe episode's row and object are
untouched. -/
theorem c5_amended_witness :
    (⟨["b2w"], []⟩ : List String × List String).1 = ["b2w"] ∧
    (⟨"b2w", some "https://h/b/fb.mp3", "2024-01-02"⟩ : EpisodeRow) ∈
      (clean_old_episodes
        ⟨fun _ => false, fun u => !(u == "b2w"), fun _ => false, fun _ => false,
         fun _ => false, fun _ => false, true⟩
        "2025-01-01"
        ⟨[⟨"b1w", some "https://h/a/fa.mp3", "2024-01-01"⟩,
          ⟨"b2w", some "https://h/b/fb.mp3", "2024-01-02"⟩],
         ["b2w"], ["mp3/fa.mp3", "mp3/fb.mp3"]⟩).1.episodes ∧
    ((blob_path "https://h/b/fb.mp3" ∈
      (clean_old_episodes
        ⟨fun _ => false, fun u => !(u == "b2w"), fun _ => false, fun _ => false,
         fun _ => false, fun _ => false, true⟩
        "2025-01-01"
        ⟨[⟨"b1w", some "https://h/a/fa.mp3", "2024-01-01"⟩,
          ⟨"b2w", some "https://h/b/fb.mp3", "2024-01-02"⟩],
         ["b2w"], ["mp3/fa.mp3", "mp3/fb.mp3"]⟩).1.store) ↔
      blob_path "https://h/b/fb.mp3" ∈ ["mp3/fa.mp3", "mp3/fb.mp3"]) := by
  have hnc : ∀ e', e' ∈ ([⟨"b1w", some "https://h/a/fa.mp3", "2024-01-01"⟩,
        ⟨"b2w", some "https://h/b/fb.mp3", "2024-01-02"⟩] : List EpisodeRow) →
      date_lt e'.pubDate "2025-01-01" = true →
      e'.id ≠ (⟨"b2w", some "https://h/b/fb.mp3", "2024-01-02"⟩ : EpisodeRow).id →
      ∀ l l', (⟨"b2w", some "https://h/b/fb.mp3", "2024-01-02"⟩ : EpisodeRow).mp3Link = some l →
        e'.mp3Link = some l' → blob_path l' ≠ blob_path l := by
    intro e' he' _hlt hne2 l l' hl hl'
    have hlv : "https://h/b/fb.mp3" = l := by injection hl
    rcases List.mem_cons.mp he' with h | h
    · subst h
      have hlv' : "https://h/a/fa.mp3" = l' := by injection hl'
      rw [← hlv, ← hlv']
      decide
    · rcases List.mem_cons.mp h with h2 | h2
      · subst h2
        exact absurd rfl hne2
      · exact absurd h2 (List.not_mem_nil e')
  have happ := c5_amended
    ⟨fun _ => false, fun u => !(u == "b2w"), fun _ => false, fun _ => false,
     fun _ => false, fun _ => false, true⟩
    "2025-01-01"
    ⟨[⟨"b1w", some "https://h/a/fa.mp3", "2024-01-01"⟩,
      ⟨"b2w", some "https://h/b/fb.mp3", "2024-01-02"⟩],
     ["b2w"], ["mp3/fa.mp3", "mp3/fb.mp3"]⟩
    ⟨"b2w", some "https://h/b/fb.mp3", "2024-01-02"⟩
    (by decide) (by decide) (by decide) (by decide) (by decide) (by decide) hnc
  exact ⟨rfl, happ.1, happ.2 "https://h/b/fb.mp3" rfl⟩

/-- Claim C6 counterexample: one old episode with zero watched rows whose
`episodes`-row delete raises. The run's event trace contains its storage
delete and no database delete, and its row is still present afterwards: the
row was not deleted strictly before the audio object — it was never deleted
at all, while the object was. -/
theorem c6_counterexample :
    c6_state.watchedRows = [] ∧
    (clean_old_episodes c6_oracle "2025-01-01" c6_state).2 =
      [RetEvent.blobDelete "mp3/g.mp3"] ∧
    (clean_old_episodes c6_oracle "2025-01-01" c6_state).1.episodes = [c6_row] := by
  exact ⟨rfl, by decide, by decide⟩

/-- Claim C6 (amended): for an old episode with zero remaining watched rows
whose own calls all succeed (in particular its database delete does not
fail), the run deletes its `episodes` row strictly before its audio object:
the event trace splits into a storage-delete-free segment containing its
database delete, followed by a database-delete-free segment containing its
storage delete — so no storage delete of the run precedes any database
delete. -/
theorem c6_amended (o : RetOracle) (cutoff : String) (st : RetState) (e : EpisodeRow) (l : String)
    (he : e ∈ st.episodes) (hold : date_lt e.pubDate cutoff = true)
    (hw : st.watchedRows.countP (fun r => r == e.id) = 0)
    (h1 : o.wdThrow e.id = false) (h2 : o.vThrow e.id = false)
    (h3 : o.epCheckThrow e.id = false) (h4 : o.epThrow e.id = false)
    (hl : e.mp3Link = some l) (hle : l ≠ "") (h5 : o.blobThrow l = false)
    (h6 : o.gcsInitOk = true) (hstore : blob_path l ∈ st.store) :
    ∃ t1 t2, (clean_old_episodes o cutoff st).2 = t1 ++ t2 ∧
      RetEvent.dbDelete e.id ∈ t1 ∧
      (∀ ev ∈ t1, ∀ p, ev ≠ RetEvent.blobDelete p) ∧
      RetEvent.blobDelete (blob_path l) ∈ t2 ∧
      (∀ ev ∈ t2, ∀ u, ev ≠ RetEvent.dbDelete u) := by
  have hemem : e ∈ get_old_episodes cutoff st := List.mem_filter.mpr ⟨he, hold⟩
  have hne : (get_old_episodes cutoff st).isEmpty = false := old_nonempty hemem
  have hid : e.id ∈ (get_old_episodes cutoff st).map (fun x => x.id) :=
    List.mem_map_of_mem _ hemem
  have hsafe := dwe_safe_mem o e.id _ st.watchedRows h1 h2 hid (Or.inr hw)
  have hrem := de_removes o
    (delete_watched_episodes o ((get_old_episodes cutoff st).map (fun x => x.id)) st.watchedRows).1
    (delete_watched_episodes o ((get_old_episodes cutoff st).map (fun x => x.id)) st.watchedRows).2
    st.episodes e.id hsafe.1 hsafe.2 h3 h4
  have hmem : some l ∈ (((get_old_episodes cutoff st).map (fun x => x.id)).zip
      ((get_old_episodes cutoff st).map (fun x => x.mp3Link))).filterMap
      (fun pr => if pr.1 ∈ (delete_watched_episodes o
        ((get_old_episodes cutoff st).map (fun x => x.id)) st.watchedRows).2
        then some pr.2 else none) := by
    have := mp3s_mem_of_safe (get_old_episodes cutoff st)
      (delete_watched_episodes o
        ((get_old_episodes cutoff st).map (fun x => x.id)) st.watchedRows).2
      e hemem hsafe.1
    rwa [hl] at this
  simp only [clean_old_episodes, hne, Bool.false_eq_true, if_false,
    delete_mp3_files, h6, if_pos]
  refine ⟨_, _, rfl, hrem.2, ?_, ?_, ?_⟩
  · intro ev hev p
    rcases de_events o _ _ _ ev hev with ⟨u, h⟩
    rw [h]
    simp
  · exact dmf_loop_event o _ st.store l hmem hle h5 hstore
  · intro ev hev u
    rcases dmf_loop_events o _ _ ev hev with ⟨p, h⟩
    rw [h]
    simp

/-- Claim C6 witness: the amended ordering at a concrete failure-free run of
one old episode. -/
theorem c6_amended_witness :
    (∃ t1 t2,
      (clean_old_episodes
        ⟨fun _ => false, fun _ => true, fun _ => false, fun _ => false,
         fun _ => false, fun _ => false, true⟩
        "2025-01-01"
        ⟨[⟨"w6", some "https://h/w6.mp3", "2024-03-01"⟩], [], ["mp3/w6.mp3"]⟩).2 = t1 ++ t2 ∧
      RetEvent.dbDelete "w6" ∈ t1 ∧
      (∀ ev ∈ t1, ∀ p, ev ≠ RetEvent.blobDelete p) ∧
      RetEvent.blobDelete (blob_path "https://h/w6.mp3") ∈ t2 ∧
      (∀ ev ∈ t2, ∀ u, ev ≠ RetEvent.dbDelete u)) :=
  c6_amended _ "2025-01-01" _ ⟨"w6", some "https://h/w6.mp3", "2024-03-01"⟩ "https://h/w6.mp3"
    (by decide) (by decide) (by decide) (by decide) (by decide) (by decide) (by decide)
    rfl (by decide) (by decide) rfl (by decide)

/-! ## Claim theorems: ingestion -/

/-- Claim C3 (code bug): for a feed item whose downloaded MP3's duration
cannot be measured, the episode is stored with `duration` equal to the
Python 1-tuple `(item["itunes:duration"],)` — the raw feed string wrapped by
the trailing comma at `get_new_episode.py:446` — and not the feed-declared
duration converted to seconds (3723 for `"01:02:03"`), which the claim and
the `duration: float` annotation call for. -/
theorem c3_code_evaluation :
    (process_episodes c3_oracle [c3_item] 5 ⟨[]⟩).processed.map (fun e => e.duration) =
      [DurationVal.strTuple "01:02:03"] ∧
    convert_in_seconds "01:02:03" = Except.ok 3723 ∧
    DurationVal.strTuple "01:02:03" ≠ DurationVal.num 3723 := by
  exact ⟨by decide, rfl, by decide⟩

/-- Claim C9: for an enclosure URL `https://host/path/file.mp3?x=1`,
ingestion derives `original_mp3_link = https://host/path/file.mp3`
(everything from the first `?` stripped) and downloads to the local filename
`file.mp3` (the final path segment of the cleaned URL). -/
theorem c9_url_derivation :
    clean_url "https://host/path/file.mp3?x=1" = "https://host/path/file.mp3" ∧
    download_mp3 c9_oracle "https://host/path/file.mp3?x=1" = some "file.mp3" ∧
    (process_episodes c9_oracle [c9_item] 5 ⟨[]⟩).processed.map
      (fun e => e.original_mp3_link) = ["https://host/path/file.mp3"] := by
  exact ⟨by decide, by decide, by decide⟩

/-- Claim C10: an item consumes one unit of the `max_episodes` budget
exactly when it passes the duration-format check and the `.mp3` check and is
either a duplicate of an existing episode or downloads successfully (thus
reaching the upload step — whether or not upload and insert then succeed);
items skipped for invalid duration, for a non-`.mp3` URL, or for a failed
download never increment the counter. -/
theorem c10_budget_consumption (o : IngestOracle) (db : DbState) (item : FeedItem) :
    consumes_budget o db item = true ↔
      (validate_duration_format item.itunesDuration = true ∧
       py_endswith ".mp3" (clean_url item.enclosureUrl) = true ∧
       ((episode_exists db (o.cv item.pubDate) ||
         episode_exists_by_url db (clean_url item.enclosureUrl)) = true ∨
        download_mp3 o (clean_url item.enclosureUrl) ≠ none)) := by
  unfold consumes_budget process_item
  cases hval : validate_duration_format item.itunesDuration with
  | false => simp [hval]
  | true =>
    simp only [hval]
    cases hmp3 : py_endswith ".mp3" (clean_url item.enclosureUrl) with
    | false => simp [hmp3]
    | true =>
      cases hdup : (episode_exists db (o.cv item.pubDate) ||
          episode_exists_by_url db (clean_url item.enclosureUrl)) with
      | true => simp [hmp3, hdup]
      | false =>
        cases hdl : download_mp3 o (clean_url item.enclosureUrl) with
        | none => simp [hmp3, hdup, hdl]
        | some f =>
          cases hup : o.uploadOk f with
          | false => simp [hmp3, hdup, hdl, hup]
          | true => simp [hmp3, hdup, hdl, hup]

/-- The ingestion loop over a feed whose every item already exists in the
table: no episode list entry, no database change, only duplicate-skip
events, and a final counter of `min max (c₀ + number of shape-valid items)`. -/
lemma c4_go (o : IngestOracle) (db : DbState) (mx : Nat) :
    ∀ (items : List FeedItem) (c : Nat), c ≤ mx →
    (∀ item ∈ items, (episode_exists db (o.cv item.pubDate) ||
       episode_exists_by_url db (clean_url item.enclosureUrl)) = true) →
    (process_episodes_go o mx items db c).processed = [] ∧
    (process_episodes_go o mx items db c).db = db ∧
    (process_episodes_go o mx items db c).count = min mx (c + items.countP item_shape_ok) ∧
    (∀ ev ∈ (process_episodes_go o mx items db c).trace, ∃ d, ev = IngEvent.dupSkip d) := by
  intro items
  induction items with
  | nil =>
    intro c hc _
    refine ⟨rfl, rfl, ?_, fun ev h => absurd h (List.not_mem_nil ev)⟩
    show c = min mx (c + List.countP item_shape_ok [])
    rw [List.countP_nil, Nat.add_zero, Nat.min_eq_right hc]
  | cons item rest ih =>
    intro c hc hdup
    have hdup_rest : ∀ it ∈ rest, (episode_exists db (o.cv it.pubDate) ||
        episode_exists_by_url db (clean_url it.enclosureUrl)) = true :=
      fun it h => hdup it (List.mem_cons_of_mem _ h)
    have hdup_item := hdup item (List.mem_cons_self _ _)
    cases hval : validate_duration_format item.itunesDuration with
    | false =>
      simp only [process_episodes_go]
      rw [if_pos hval]
      rcases ih c hc hdup_rest with ⟨ha, hb, hcnt, htr⟩
      refine ⟨ha, hb, ?_, htr⟩
      rw [hcnt, List.countP_cons]
      have hshape : item_shape_ok item = false := by
        simp [item_shape_ok, hval]
      rw [hshape]
      simp
    | true =>
      simp only [process_episodes_go]
      rw [if_neg (by simp [hval])]
      by_cases hbr : mx ≤ c
      · rw [if_pos hbr]
        have hceq : c = mx := Nat.le_antisymm hc hbr
        refine ⟨rfl, rfl, ?_, fun ev h => absurd h (List.not_mem_nil ev)⟩
        show c = min mx (c + List.countP item_shape_ok (item :: rest))
        rw [hceq]
        exact (Nat.min_eq_left (Nat.le_add_right mx _)).symm
      · rw [if_neg hbr]
        cases hmp3 : py_endswith ".mp3" (clean_url item.enclosureUrl) with
        | false =>
          have hpi : process_item o db item = StepRes.skipStep [] := by
            unfold process_item
            rw [if_pos hmp3]
          simp only [hpi]
          rcases ih c hc hdup_rest with ⟨ha, hb, hcnt, htr⟩
          refine ⟨ha, hb, ?_, ?_⟩
          · show (process_episodes_go o mx rest db c).count = _
            rw [hcnt, List.countP_cons]
            have hshape : item_shape_ok item = false := by
              simp [item_shape_ok, hval, hmp3]
            rw [hshape]
            simp
          · intro ev hev
            exact htr ev (by simpa using hev)
        | true =>
          have hpi : process_item o db item =
              StepRes.consume db none [IngEvent.dupSkip (o.cv item.pubDate)] := by
            unfold process_item
            rw [if_neg (by simp [hmp3]), if_pos hdup_item]
          simp only [hpi]
          have hc1 : c + 1 ≤ mx := Nat.succ_le_of_lt (Nat.lt_of_not_le hbr)
          rcases ih (c + 1) hc1 hdup_rest with ⟨ha, hb, hcnt, htr⟩
          refine ⟨ha, hb, ?_, ?_⟩
          · show (process_episodes_go o mx rest db (c + 1)).count = _
            rw [hcnt, List.countP_cons]
            have hshape : item_shape_ok item = true := by
              simp [item_shape_ok, hval, hmp3]
            rw [hshape, if_pos rfl]
            congr 1
            omega
          · intro ev hev
            rcases (by simpa using hev :
                ev = IngEvent.dupSkip (o.cv item.pubDate) ∨
                ev ∈ (process_episodes_go o mx rest db (c + 1)).trace) with h | h
            · exact ⟨o.cv item.pubDate, h⟩
            · exact htr ev h

/-- Claim C4 counterexample: a feed item whose converted publication date
already exists in the table but whose declared duration `"1:2:3"` fails
validation. The run inserts nothing — but the item is skipped before the
duplicate check and does not count toward `max_episodes` (the final counter
is 0, not 1), so "each such item … counts toward max_episodes" fails. -/
theorem c4_counterexample :
    episode_exists c4_db (c4_oracle.cv c4_item.pubDate) = true ∧
    (process_episodes c4_oracle [c4_item] 5 c4_db).processed = [] ∧
    (process_episodes c4_oracle [c4_item] 5 c4_db).count = 0 := by
  exact ⟨by decide, by decide, by decide⟩

/-- Claim C4 (amended): re-running ingestion over a feed whose every item's
converted publication date or query-stripped enclosure URL already exists in
the table inserts zero new rows — the returned list is empty, the table is
unchanged, and no download, upload or insert happens; every such item that
also passes the duration-format and `.mp3` checks is skipped at the
duplicate check and counts toward `max_episodes` (the final counter is
`min max_episodes (number of shape-valid items)`), while items failing those
checks are skipped without counting. -/
theorem c4_amended (o : IngestOracle) (items : List FeedItem) (mx : Nat) (db : DbState)
    (hdup : ∀ item ∈ items, (episode_exists db (o.cv item.pubDate) ||
      episode_exists_by_url db (clean_url item.enclosureUrl)) = true) :
    (process_episodes o items mx db).processed = [] ∧
    (process_episodes o items mx db).db = db ∧
    (process_episodes o items mx db).count = min mx (items.countP item_shape_ok) ∧
    (∀ ev ∈ (process_episodes o items mx db).trace, ∃ d, ev = IngEvent.dupSkip d) := by
  have h := c4_go o db mx items 0 (Nat.zero_le mx) hdup
  simpa using h

/-- Claim C4 witness: one shape-valid item whose date exists in the table;
the run inserts nothing, leaves the table unchanged, emits only a
duplicate-skip, and the item consumes one unit of budget. -/
theorem c4_amended_witness :
    (∀ item ∈ [(⟨"tw", "rawdate", "dw", "00:10:00", "https://h/w.mp3"⟩ : FeedItem)],
      (episode_exists c4_db (c4_oracle.cv item.pubDate) ||
       episode_exists_by_url c4_db (clean_url item.enclosureUrl)) = true) ∧
    (process_episodes c4_oracle [⟨"tw", "rawdate", "dw", "00:10:00", "https://h/w.mp3"⟩]
      5 c4_db).processed = [] ∧
    (process_episodes c4_oracle [⟨"tw", "rawdate", "dw", "00:10:00", "https://h/w.mp3"⟩]
      5 c4_db).db = c4_db ∧
    (process_episodes c4_oracle [⟨"tw", "rawdate", "dw", "00:10:00", "https://h/w.mp3"⟩]
      5 c4_db).count =
      min 5 (List.countP item_shape_ok
        [(⟨"tw", "rawdate", "dw", "00:10:00", "https://h/w.mp3"⟩ : FeedItem)]) := by
  have hdup : ∀ item ∈ [(⟨"tw", "rawdate", "dw", "00:10:00", "https://h/w.mp3"⟩ : FeedItem)],
      (episode_exists c4_db (c4_oracle.cv item.pubDate) ||
       episode_exists_by_url c4_db (clean_url item.enclosureUrl)) = true := by
    intro item hmem
    rcases List.mem_cons.mp hmem with h | h
    · subst h; decide
    · exact absurd h (List.not_mem_nil item)
  have happ := c4_amended c4_oracle [⟨"tw", "rawdate", "dw", "00:10:00", "https://h/w.mp3"⟩]
    5 c4_db hdup
  exact ⟨hdup, happ.1, happ.2.1, happ.2.2.1⟩
